import Mathlib

/-!
# Verification of the 48-bit timestamp generator (`timestamp.js`)

A shallow embedding of the repository's 48-bit timestamp codec and
monotonic generator, together with theorems settling the specification
claims.

The primary module (the one imported by `timestamp.test.js` and
`benchmark.js`, containing `generateTimestamp48Fast`) is embedded at top
level; the older copy of the module (which differs only in the decode
reconstruction arithmetic and the absence of the fast path) is embedded
in namespace `Part000`.

Conventions of the embedding:
* JavaScript numbers holding 48-bit timestamps are modelled as `Nat`
  (they are nonnegative integers well below 2^53, where JS `number`
  arithmetic on integers is exact); clock readings and the mutable
  `lastGeneratedTimestamp` state are modelled as `Int` so that a
  misbehaving (negative) wall clock is representable.
* The unsigned 32-bit operators are modelled arithmetically:
  `x >>> k` on a value `v` is `(v % 2^32) / 2^k`, `v & 0xFF` is
  `v % 256`.  The *signed* 32-bit shift `v << k` is modelled by
  `toInt32 (v * 2^k)`, which reduces modulo 2^32 into `[-2^31, 2^31)`;
  this signedness is observable in the decoder (`bytes[2] << 24`).
* Bit-or of bit-disjoint fields (`(a << 16) | (b << 8) | c` with
  `a, b, c < 256`) is written as the equal sum `a * 2^16 + b * 2^8 + c`.
* Strings are `List Char`; a JS value passed to `decodeTimestamp48` is
  either a string or a non-string (`JSValue`), matching the `typeof`
  check.  Distinct thrown `Error` messages are modelled as a sum type.
-/

/-- JS `ToInt32`: reduce a nonnegative integer modulo 2^32 into the
signed range `[-2^31, 2^31)`.  This is the result type of the JS `<<`
operator. -/
def toInt32 (n : Nat) : Int :=
  if n % 2 ^ 32 < 2 ^ 31 then ((n % 2 ^ 32 : Nat) : Int)
  else ((n % 2 ^ 32 : Nat) : Int) - 2 ^ 32

/-- `const BASE64URL_CHARS = 'ABCDEFGHIJKLMNOPQRSTUVWXYZabcdefghijklmnopqrstuvwxyz0123456789-_'`
(RFC 4648 URL-safe alphabet, no padding), as a list of characters. -/
def BASE64URL_CHARS : List Char :=
  "ABCDEFGHIJKLMNOPQRSTUVWXYZabcdefghijklmnopqrstuvwxyz0123456789-_".toList

/-- `ENCODE_TABLE[i] = BASE64URL_CHARS[i]` for `i < 64`.  The default
value is never reached: every index fed to the table is masked to
`[0, 64)`. -/
def ENCODE_TABLE (i : Nat) : Char :=
  BASE64URL_CHARS.getD i 'A'

/-- `DECODE_TABLE`, the inverse lookup: the source fills an array with
`-1` and then sets `DECODE_TABLE[BASE64URL_CHARS.charCodeAt(i)] = i`.
Since the alphabet's characters are distinct, the table maps a
character of the alphabet to its index and anything else to `-1`. -/
def DECODE_TABLE (c : Char) : Int :=
  match BASE64URL_CHARS.findIdx? (fun a => a = c) with
  | some i => (i : Int)
  | none => -1

/-- The character class of `BASE64URL_REGEX = /^[A-Za-z0-9_-]{8}$/`. -/
def isBase64UrlChar (c : Char) : Bool :=
  ('A' ≤ c && c ≤ 'Z') || ('a' ≤ c && c ≤ 'z') || ('0' ≤ c && c ≤ '9')
    || c = '_' || c = '-'

/-- `BASE64URL_REGEX.test`: exactly 8 symbols, all in the class. -/
def base64UrlRegexTest (s : List Char) : Bool :=
  s.length = 8 && s.all isBase64UrlChar

/-! ## Encoder (inline in `generateTimestamp48`, part_001 lines 54-85)

The six big-endian bytes of the 48-bit value, the two 24-bit groups,
and the eight 6-bit fields, exactly as computed in the source. -/

/-- `bytes[0] = Math.floor(timestamp48 / Math.pow(2, 40)) & 0xFF` -/
def byte0 (ts : Nat) : Nat := ts / 2 ^ 40 % 256

/-- `bytes[1] = Math.floor(timestamp48 / Math.pow(2, 32)) & 0xFF` -/
def byte1 (ts : Nat) : Nat := ts / 2 ^ 32 % 256

/-- `bytes[2] = (timestamp48 >>> 24) & 0xFF` (`>>>` acts on `ToUint32(ts)`) -/
def byte2 (ts : Nat) : Nat := ts % 2 ^ 32 / 2 ^ 24 % 256

/-- `bytes[3] = (timestamp48 >>> 16) & 0xFF` -/
def byte3 (ts : Nat) : Nat := ts % 2 ^ 32 / 2 ^ 16 % 256

/-- `bytes[4] = (timestamp48 >>> 8) & 0xFF` -/
def byte4 (ts : Nat) : Nat := ts % 2 ^ 32 / 2 ^ 8 % 256

/-- `bytes[5] = timestamp48 & 0xFF` (`&` acts on `ToInt32(ts)`; its low
byte is `ts % 256`) -/
def byte5 (ts : Nat) : Nat := ts % 256

/-- `const g1 = (b0 << 16) | (b1 << 8) | b2` — the fields are
bit-disjoint (each byte `< 256`), so the bit-or is the sum. -/
def encGroup1 (ts : Nat) : Nat :=
  byte0 ts * 2 ^ 16 + byte1 ts * 2 ^ 8 + byte2 ts

/-- `const g2 = (b3 << 16) | (b4 << 8) | b5` -/
def encGroup2 (ts : Nat) : Nat :=
  byte3 ts * 2 ^ 16 + byte4 ts * 2 ^ 8 + byte5 ts

/-- The eight 6-bit indices
`(g1 >>> 18) & 0x3F, (g1 >>> 12) & 0x3F, (g1 >>> 6) & 0x3F, g1 & 0x3F`
and the same for `g2` (`g1, g2 < 2^24`, so `>>>` is plain division). -/
def encodeIndices (ts : Nat) : List Nat :=
  [encGroup1 ts / 2 ^ 18 % 64, encGroup1 ts / 2 ^ 12 % 64,
   encGroup1 ts / 2 ^ 6 % 64, encGroup1 ts % 64,
   encGroup2 ts / 2 ^ 18 % 64, encGroup2 ts / 2 ^ 12 % 64,
   encGroup2 ts / 2 ^ 6 % 64, encGroup2 ts % 64]

/-- The pure encoding step of `generateTimestamp48` (part_001 lines
54-85): pack the 48-bit value into 6 big-endian bytes, split into two
24-bit groups, emit eight alphabet characters `c0 … c7`. -/
def encodeTimestamp48 (ts : Nat) : List Char :=
  (encodeIndices ts).map ENCODE_TABLE

/-! ## Monotonic generator (part_001 lines 43-86 and 147-173) -/

/-- `generateTimestamp48()` as a function of the `Date.now()` reading
and the current `lastGeneratedTimestamp` state.  Returns the token and
the new state.

```
let now = Date.now();
if (now <= lastGeneratedTimestamp) { now = lastGeneratedTimestamp + 1; }
lastGeneratedTimestamp = now;
```
then encodes `now` (a nonnegative integer whenever the state is). -/
def generateTimestamp48 (dateNow lastGeneratedTimestamp : Int) :
    List Char × Int :=
  let now :=
    if dateNow ≤ lastGeneratedTimestamp then lastGeneratedTimestamp + 1
    else dateNow
  (encodeTimestamp48 now.toNat, now)

/-- The byte-extraction of `generateTimestamp48Fast`:
`FAST_VIEW.setBigUint64(0, BigInt(now), false)` stores `now % 2^64` as
8 big-endian bytes, and `getUint8(2) … getUint8(7)` read the last six,
so byte `k` (for `k = 2 … 7`) is `now % 2^64 / 2^(8*(7-k)) % 256`. -/
def fastByte (ts k : Nat) : Nat :=
  ts % 2 ^ 64 / 2 ^ (8 * (7 - k)) % 256

/-- The pure encoding step of `generateTimestamp48Fast` (part_001 lines
156-172).  Note the first character of each group is
`ENCODE_TABLE[g1 >>> 18]` with no `& 0x3F` mask (safe: `g1 < 2^24`). -/
def encodeTimestamp48Fast (ts : Nat) : List Char :=
  let b0 := fastByte ts 2
  let b1 := fastByte ts 3
  let b2 := fastByte ts 4
  let b3 := fastByte ts 5
  let b4 := fastByte ts 6
  let b5 := fastByte ts 7
  let g1 := b0 * 2 ^ 16 + b1 * 2 ^ 8 + b2
  let g2 := b3 * 2 ^ 16 + b4 * 2 ^ 8 + b5
  [ENCODE_TABLE (g1 / 2 ^ 18), ENCODE_TABLE (g1 / 2 ^ 12 % 64),
   ENCODE_TABLE (g1 / 2 ^ 6 % 64), ENCODE_TABLE (g1 % 64),
   ENCODE_TABLE (g2 / 2 ^ 18), ENCODE_TABLE (g2 / 2 ^ 12 % 64),
   ENCODE_TABLE (g2 / 2 ^ 6 % 64), ENCODE_TABLE (g2 % 64)]

/-- `generateTimestamp48Fast()` (part_001 lines 147-173): the identical
monotonic-state update followed by the DataView-based encoding. -/
def generateTimestamp48Fast (dateNow lastGeneratedTimestamp : Int) :
    List Char × Int :=
  let now :=
    if dateNow ≤ lastGeneratedTimestamp then lastGeneratedTimestamp + 1
    else dateNow
  (encodeTimestamp48Fast now.toNat, now)

/-! ## Decoder -/

/-- A JavaScript value passed to `decodeTimestamp48`: a string, or any
non-string value (`null`, `undefined`, a number, …), which the source
rejects uniformly by the `typeof encoded !== 'string'` check. -/
inductive JSValue where
  | str (s : List Char)
  | nonString
  deriving DecidableEq

/-- The distinct `Error`s thrown by `decodeTimestamp48`, identified by
their messages: "Encoded timestamp must be a string",
"Invalid timestamp length: (actual), expected 8" — carrying the actual
length — and "Invalid Base64URL format: (input)". -/
inductive DecodeError where
  | typeMismatch
  | invalidLength (actual : Nat)
  | invalidFormat
  deriving DecidableEq

/-- `DECODE_TABLE[encoded.charCodeAt(i)]` as a natural number, on the
validated path (where the regex guarantees the lookup is in `[0, 63]`). -/
def tableIdx (c : Char) : Nat := (DECODE_TABLE c).toNat

/-- `decodeTimestamp48(encoded)` of the primary module (part_001 lines
94-139).  Validation in source order: `typeof`, length, regex.  Then
`g1 = (t0 << 18) | (t1 << 12) | (t2 << 6) | t3` on the four leading
6-bit values (bit-disjoint, hence a sum), bytes extracted by
`(g1 >>> 16) & 0xFF` etc., same for `g2`, and the reconstruction

```
bytes[0] * 0x10000000000 + bytes[1] * 0x100000000 +
(bytes[2] << 24) + (bytes[3] << 16) + (bytes[4] << 8) + bytes[5]
```

where `<<` is the *signed* 32-bit shift, modelled by `toInt32`. -/
def decodeTimestamp48 (encoded : JSValue) : Except DecodeError Int :=
  match encoded with
  | .nonString => .error .typeMismatch
  | .str s =>
    if s.length ≠ 8 then .error (.invalidLength s.length)
    else if ¬ base64UrlRegexTest s then .error .invalidFormat
    else
      let g1 := tableIdx (s.getD 0 'A') * 2 ^ 18 + tableIdx (s.getD 1 'A') * 2 ^ 12
        + tableIdx (s.getD 2 'A') * 2 ^ 6 + tableIdx (s.getD 3 'A')
      let b0 := g1 / 2 ^ 16 % 256
      let b1 := g1 / 2 ^ 8 % 256
      let b2 := g1 % 256
      let g2 := tableIdx (s.getD 4 'A') * 2 ^ 18 + tableIdx (s.getD 5 'A') * 2 ^ 12
        + tableIdx (s.getD 6 'A') * 2 ^ 6 + tableIdx (s.getD 7 'A')
      let b3 := g2 / 2 ^ 16 % 256
      let b4 := g2 / 2 ^ 8 % 256
      let b5 := g2 % 256
      .ok ((b0 * 2 ^ 40 + b1 * 2 ^ 32 : Nat) + toInt32 (b2 * 2 ^ 24)
        + toInt32 (b3 * 2 ^ 16) + toInt32 (b4 * 2 ^ 8) + (b5 : Nat))

namespace Part000

/-- `decodeTimestamp48(encoded)` of the older copy of the module
(part_000 lines 88-133): identical validation and byte extraction, but
the reconstruction multiplies every byte
(`bytes[2] * Math.pow(2, 24)` instead of `bytes[2] << 24`), staying in
exact nonnegative arithmetic. -/
def decodeTimestamp48 (encoded : JSValue) : Except DecodeError Int :=
  match encoded with
  | .nonString => .error .typeMismatch
  | .str s =>
    if s.length ≠ 8 then .error (.invalidLength s.length)
    else if ¬ base64UrlRegexTest s then .error .invalidFormat
    else
      let g1 := tableIdx (s.getD 0 'A') * 2 ^ 18 + tableIdx (s.getD 1 'A') * 2 ^ 12
        + tableIdx (s.getD 2 'A') * 2 ^ 6 + tableIdx (s.getD 3 'A')
      let b0 := g1 / 2 ^ 16 % 256
      let b1 := g1 / 2 ^ 8 % 256
      let b2 := g1 % 256
      let g2 := tableIdx (s.getD 4 'A') * 2 ^ 18 + tableIdx (s.getD 5 'A') * 2 ^ 12
        + tableIdx (s.getD 6 'A') * 2 ^ 6 + tableIdx (s.getD 7 'A')
      let b3 := g2 / 2 ^ 16 % 256
      let b4 := g2 / 2 ^ 8 % 256
      let b5 := g2 % 256
      .ok ((b0 * 2 ^ 40 + b1 * 2 ^ 32 + b2 * 2 ^ 24
        + b3 * 2 ^ 16 + b4 * 2 ^ 8 + b5 : Nat) : Int)

end Part000

/-! ## Generator sequences -/

/-- Dispatch between the two generation paths, as `generateBatch` does
with `const generator = fast ? generateTimestamp48Fast : generateTimestamp48`. -/
def runGenerator (fast : Bool) (dateNow last : Int) : List Char × Int :=
  if fast then generateTimestamp48Fast dateNow last
  else generateTimestamp48 dateNow last

/-- The instants issued by successive calls of `generateTimestamp48`,
one per wall-clock reading in `clocks`, threading the
`lastGeneratedTimestamp` state. -/
def issuedInstants (clocks : List Int) (last : Int) : List Int :=
  match clocks with
  | [] => []
  | c :: rest =>
    let r := generateTimestamp48 c last
    r.2 :: issuedInstants rest r.2

/-- The instants issued by an interleaving of the two generation paths
(each call carries its wall-clock reading and its path choice), all
updating the one shared `lastGeneratedTimestamp` state. -/
def issuedInstantsMixed (calls : List (Int × Bool)) (last : Int) : List Int :=
  match calls with
  | [] => []
  | c :: rest =>
    let r := runGenerator c.2 c.1 last
    r.2 :: issuedInstantsMixed rest r.2

/-- `generateBatch`'s loop: `count` generator invocations in order,
the `i`-th one seeing wall-clock reading `clocks i`. -/
def generateBatchLoop : Nat → (Nat → Int) → Bool → Int →
    List (List Char) × Int
  | 0, _, _, last => ([], last)
  | n + 1, clocks, fast, last =>
    let r := runGenerator fast (clocks 0) last
    let rest := generateBatchLoop n (fun i => clocks (i + 1)) fast r.2
    (r.1 :: rest.1, rest.2)

/-- The single `Error` thrown by `generateBatch` on an out-of-range
count: 'Count must be an integer between 1 and 10000'. -/
inductive BatchError where
  | invalidCount
  deriving DecidableEq

/-- `generateBatch(count, options)` (part_001 lines 183-200), with the
`options` argument modelled by its one field `{ fast = false }`.
`count` is modelled as an integer (so the `Number.isInteger` guard is
satisfied by typing); the remaining guard is
`count < 1 || count > 10000`. -/
def generateBatch (count : Int) (fast : Bool) (clocks : Nat → Int)
    (last : Int) : Except BatchError (List (List Char) × Int) :=
  if count < 1 ∨ 10000 < count then .error .invalidCount
  else .ok (generateBatchLoop count.toNat clocks fast last)

/-! ## Specification-side definitions used by the theorems -/

/-- Big-endian base-64 digits: `beDigits n x` is the `n`-digit
expansion of `x < 64^n`. -/
def beDigits : Nat → Nat → List Nat
  | 0, _ => []
  | n + 1, x => x / 64 ^ n :: beDigits n (x % 64 ^ n)

/-- The numeric value of a list of 6-bit fields (most significant
first). -/
def indicesValue (l : List Nat) : Nat :=
  l.foldl (fun a d => a * 64 + d) 0

/-- Strict lexicographic comparison of equal-purpose digit lists. -/
def digitLexLt : List Nat → List Nat → Bool
  | _, [] => false
  | [], _ :: _ => true
  | a :: as, b :: bs =>
    if a < b then true else if b < a then false else digitLexLt as bs

/-- Strict lexicographic comparison of tokens where each character is
compared by its *alphabet index* (its `DECODE_TABLE` entry) rather than
by its character code. -/
def charIdxLexLt : List Char → List Char → Bool
  | _, [] => false
  | [], _ :: _ => true
  | a :: as, b :: bs =>
    if DECODE_TABLE a < DECODE_TABLE b then true
    else if DECODE_TABLE b < DECODE_TABLE a then false
    else charIdxLexLt as bs

/-- Ordinary JavaScript string comparison: `<` on strings compares
UTF-16 code units lexicographically (for the alphabet's ASCII
characters, the code unit is the character code). -/
def jsStringLtb : List Char → List Char → Bool
  | [], [] => false
  | [], _ :: _ => true
  | _ :: _, [] => false
  | a :: as, b :: bs =>
    if a < b then true else if b < a then false else jsStringLtb as bs

/-- `s < t` in ordinary (character-code) string order. -/
def jsStringLt (s t : List Char) : Prop :=
  jsStringLtb s t = true

instance (s t : List Char) : Decidable (jsStringLt s t) :=
  inferInstanceAs (Decidable (jsStringLtb s t = true))

/-- A syntactically valid token: exactly 8 symbols, all drawn from the
64-symbol alphabet. -/
def isValidToken (t : List Char) : Prop :=
  t.length = 8 ∧ ∀ c ∈ t, c ∈ BASE64URL_CHARS

/-! ## Arithmetic characterization of the encoder -/

theorem encGroup1_eq (ts : Nat) (h : ts < 2 ^ 48) :
    encGroup1 ts = ts / 2 ^ 24 := by
  unfold encGroup1 byte0 byte1 byte2
  omega

theorem encGroup2_eq (ts : Nat) : encGroup2 ts = ts % 2 ^ 24 := by
  unfold encGroup2 byte3 byte4 byte5
  omega

/-- The eight 6-bit fields computed by the encoder are exactly the
eight big-endian base-64 digits of the 48-bit value. -/
theorem encodeIndices_eq_beDigits (ts : Nat) (h : ts < 2 ^ 48) :
    encodeIndices ts = beDigits 8 ts := by
  have h1 := encGroup1_eq ts h
  have h2 := encGroup2_eq ts
  simp only [encodeIndices, h1, h2]
  show _ = [ts / 64 ^ 7, _, _, _, _, _, _, _]
  simp only [beDigits, List.cons.injEq, Nat.mod_mod_of_dvd, and_true]
  norm_num
  omega

theorem beDigits_foldl (n : Nat) (x : Nat) (hx : x < 64 ^ n) (acc : Nat) :
    (beDigits n x).foldl (fun a d => a * 64 + d) acc = acc * 64 ^ n + x := by
  induction n generalizing x acc with
  | zero => simp [beDigits]; omega
  | succ n ih =>
    simp only [beDigits, List.foldl_cons]
    rw [ih (x % 64 ^ n) (Nat.mod_lt _ (Nat.pos_pow_of_pos n (by norm_num)))]
    have hx64 : x = 64 ^ n * (x / 64 ^ n) + x % 64 ^ n :=
      (Nat.div_add_mod x (64 ^ n)).symm
    rw [pow_succ]
    conv_rhs => rw [hx64]
    ring

theorem foldl_base64_split (l : List Nat) (acc : Nat) :
    l.foldl (fun a d => a * 64 + d) acc = acc * 64 ^ l.length + indicesValue l := by
  induction l generalizing acc with
  | nil => simp [indicesValue]
  | cons d l ih =>
    simp only [List.foldl_cons, List.length_cons, indicesValue,
      Nat.zero_mul, Nat.zero_add] at *
    rw [ih (acc * 64 + d), ih d]
    ring

theorem indicesValue_lt (l : List Nat) (h : ∀ d ∈ l, d < 64) :
    indicesValue l < 64 ^ l.length := by
  induction l with
  | nil => simp [indicesValue]
  | cons d l ih =>
    have hd : d < 64 := h d (List.mem_cons_self d l)
    have hl := ih (fun a ha => h a (List.mem_cons_of_mem d ha))
    simp only [indicesValue, List.foldl_cons, List.length_cons,
      Nat.zero_mul, Nat.zero_add] at *
    rw [foldl_base64_split]
    have e0 : 64 ^ (l.length + 1) = 64 * 64 ^ l.length := by ring
    have e1 : d * 64 ^ l.length ≤ 63 * 64 ^ l.length :=
      Nat.mul_le_mul_right _ (by omega)
    have e2 : 63 * 64 ^ l.length + 64 ^ l.length = 64 * 64 ^ l.length := by ring
    simp only [indicesValue] at *
    omega

theorem beDigits_indicesValue (l : List Nat) (h : ∀ d ∈ l, d < 64) :
    beDigits l.length (indicesValue l) = l := by
  induction l with
  | nil => simp [beDigits]
  | cons d l ih =>
    have hd : d < 64 := h d (List.mem_cons_self d l)
    have hall : ∀ a ∈ l, a < 64 := fun a ha => h a (List.mem_cons_of_mem d ha)
    have hlt := indicesValue_lt l hall
    have hv : indicesValue (d :: l) = d * 64 ^ l.length + indicesValue l := by
      simp only [indicesValue, List.foldl_cons, Nat.zero_mul, Nat.zero_add]
      rw [foldl_base64_split]
      rfl
    simp only [List.length_cons, beDigits, hv]
    have hpos : 0 < 64 ^ l.length := Nat.pos_pow_of_pos _ (by norm_num)
    have hdiv : (d * 64 ^ l.length + indicesValue l) / 64 ^ l.length = d := by
      rw [Nat.mul_comm d _, Nat.mul_add_div hpos]
      have := Nat.div_eq_of_lt hlt
      omega
    have hmod : (d * 64 ^ l.length + indicesValue l) % 64 ^ l.length
        = indicesValue l := by
      rw [Nat.mul_comm d _, Nat.mul_add_mod]
      exact Nat.mod_eq_of_lt hlt
    rw [hdiv, hmod, ih hall]

/-! ## Lexicographic order machinery -/

theorem digitLexLt_beDigits {n x y : Nat} (hxy : x < y) (hy : y < 64 ^ n) :
    digitLexLt (beDigits n x) (beDigits n y) = true := by
  induction n generalizing x y with
  | zero => omega
  | succ n ih =>
    simp only [beDigits, digitLexLt]
    have hq : x / 64 ^ n ≤ y / 64 ^ n := Nat.div_le_div_right hxy.le
    rcases Nat.lt_or_ge (x / 64 ^ n) (y / 64 ^ n) with hlt | hge
    · simp [hlt]
    · have heq : x / 64 ^ n = y / 64 ^ n := le_antisymm hq hge
      have hx64 := Nat.div_add_mod x (64 ^ n)
      have hy64 := Nat.div_add_mod y (64 ^ n)
      have hpos : 0 < 64 ^ n := Nat.pos_pow_of_pos n (by norm_num)
      rw [heq] at hx64
      have hmod : x % 64 ^ n < y % 64 ^ n := by omega
      have hybound : y % 64 ^ n < 64 ^ n := Nat.mod_lt _ hpos
      simp [heq, ih hmod hybound]

/-! ## Alphabet-table facts (finite checks) -/

theorem DECODE_ENCODE_TABLE : ∀ i < 64, DECODE_TABLE (ENCODE_TABLE i) = (i : Int) := by
  decide

theorem tableIdx_ENCODE_TABLE : ∀ i < 64, tableIdx (ENCODE_TABLE i) = i := by
  decide

theorem ENCODE_TABLE_mem : ∀ i < 64, ENCODE_TABLE i ∈ BASE64URL_CHARS := by
  decide

theorem ENCODE_TABLE_tableIdx : ∀ c ∈ BASE64URL_CHARS, ENCODE_TABLE (tableIdx c) = c := by
  decide

theorem tableIdx_lt_of_mem : ∀ c ∈ BASE64URL_CHARS, tableIdx c < 64 := by
  decide

theorem isBase64UrlChar_of_mem : ∀ c ∈ BASE64URL_CHARS, isBase64UrlChar c = true := by
  decide

theorem encodeIndices_lt (ts : Nat) : ∀ d ∈ encodeIndices ts, d < 64 := by
  intro d hd
  simp only [encodeIndices, List.mem_cons, List.not_mem_nil, or_false] at hd
  rcases hd with h | h | h | h | h | h | h | h <;> subst h <;> omega

theorem encodeIndices_length (ts : Nat) : (encodeIndices ts).length = 8 := by
  simp [encodeIndices]

theorem encodeTimestamp48_length (ts : Nat) : (encodeTimestamp48 ts).length = 8 := by
  simp [encodeTimestamp48, encodeIndices]

/-- Comparing two encoded digit lists character-by-character via the
alphabet index agrees with comparing the digit lists themselves. -/
theorem charIdxLexLt_map : ∀ l1 l2 : List Nat, (∀ d ∈ l1, d < 64) →
    (∀ d ∈ l2, d < 64) →
    charIdxLexLt (l1.map ENCODE_TABLE) (l2.map ENCODE_TABLE) = digitLexLt l1 l2
  | _, [], _, _ => by simp [charIdxLexLt, digitLexLt]
  | [], _ :: _, _, _ => by simp [charIdxLexLt, digitLexLt]
  | a :: as, b :: bs, h1, h2 => by
    have ha : a < 64 := h1 a (List.mem_cons_self a as)
    have hb : b < 64 := h2 b (List.mem_cons_self b bs)
    simp only [List.map_cons, charIdxLexLt, digitLexLt,
      DECODE_ENCODE_TABLE a ha, DECODE_ENCODE_TABLE b hb, Int.ofNat_lt]
    rw [charIdxLexLt_map as bs (fun d hd => h1 d (List.mem_cons_of_mem a hd))
      (fun d hd => h2 d (List.mem_cons_of_mem b hd))]

/-! ## Token validity and the encode bijection -/

theorem map_tableIdx_encode (l : List Nat) (h : ∀ d ∈ l, d < 64) :
    (l.map ENCODE_TABLE).map tableIdx = l := by
  rw [List.map_map]
  have : ∀ d ∈ l, (tableIdx ∘ ENCODE_TABLE) d = id d := fun d hd =>
    tableIdx_ENCODE_TABLE d (h d hd)
  rw [List.map_congr_left this, List.map_id]

theorem indicesValue_encodeIndices (ts : Nat) (h : ts < 2 ^ 48) :
    indicesValue (encodeIndices ts) = ts := by
  rw [encodeIndices_eq_beDigits ts h]
  have := beDigits_foldl 8 ts (by norm_num at h ⊢; omega) 0
  simpa [indicesValue] using this

theorem encodeTimestamp48_valid (ts : Nat) : isValidToken (encodeTimestamp48 ts) := by
  refine ⟨encodeTimestamp48_length ts, ?_⟩
  intro c hc
  simp only [encodeTimestamp48, List.mem_map] at hc
  obtain ⟨d, hd, rfl⟩ := hc
  exact ENCODE_TABLE_mem d (encodeIndices_lt ts d hd)

theorem encodeTimestamp48_injective (x y : Nat) (hx : x < 2 ^ 48)
    (hy : y < 2 ^ 48) (h : encodeTimestamp48 x = encodeTimestamp48 y) : x = y := by
  have h' : (encodeTimestamp48 x).map tableIdx = (encodeTimestamp48 y).map tableIdx := by
    rw [h]
  rw [encodeTimestamp48, encodeTimestamp48,
    map_tableIdx_encode _ (encodeIndices_lt x),
    map_tableIdx_encode _ (encodeIndices_lt y)] at h'
  rw [← indicesValue_encodeIndices x hx, ← indicesValue_encodeIndices y hy, h']

theorem encodeTimestamp48_surjective (t : List Char) (h : isValidToken t) :
    ∃ x, x < 2 ^ 48 ∧ encodeTimestamp48 x = t := by
  obtain ⟨hlen, hmem⟩ := h
  set l := t.map tableIdx with hl
  have hall : ∀ d ∈ l, d < 64 := by
    intro d hd
    simp only [hl, List.mem_map] at hd
    obtain ⟨c, hc, rfl⟩ := hd
    exact tableIdx_lt_of_mem c (hmem c hc)
  have hlen' : l.length = 8 := by simp [hl, hlen]
  refine ⟨indicesValue l, ?_, ?_⟩
  · have := indicesValue_lt l hall
    rw [hlen'] at this
    norm_num at this ⊢
    omega
  · have hb : beDigits 8 (indicesValue l) = l := by
      have := beDigits_indicesValue l hall
      rwa [hlen'] at this
    have hlt : indicesValue l < 2 ^ 48 := by
      have := indicesValue_lt l hall
      rw [hlen'] at this
      norm_num at this ⊢
      omega
    rw [encodeTimestamp48, encodeIndices_eq_beDigits _ hlt, hb, hl, List.map_map]
    have : ∀ c ∈ t, (ENCODE_TABLE ∘ tableIdx) c = id c := fun c hc =>
      ENCODE_TABLE_tableIdx c (hmem c hc)
    rw [List.map_congr_left this, List.map_id]

/-! ## The two generation paths agree -/

/-- For any value in the 64-bit range (in particular for every JS safe
integer), the DataView-based encoding of the fast path produces exactly
the bytes and characters of the standard path. -/
theorem encodeTimestamp48Fast_eq (ts : Nat) (h : ts < 2 ^ 64) :
    encodeTimestamp48Fast ts = encodeTimestamp48 ts := by
  have hm : ts % 2 ^ 64 = ts := Nat.mod_eq_of_lt h
  simp only [encodeTimestamp48Fast, encodeTimestamp48, encodeIndices,
    List.map_cons, List.map_nil, fastByte, hm]
  norm_num
  refine ⟨?_, ?_, ?_, ?_, ?_, ?_, ?_, ?_⟩ <;>
    (apply congrArg;
     simp only [encGroup1, encGroup2, byte0, byte1, byte2, byte3, byte4, byte5];
     omega)

/-! ## Monotonicity of the shared state -/

theorem generateTimestamp48_snd (dateNow last : Int) :
    last < (generateTimestamp48 dateNow last).2 := by
  simp only [generateTimestamp48]
  split <;> omega

theorem runGenerator_snd (fast : Bool) (dateNow last : Int) :
    last < (runGenerator fast dateNow last).2 := by
  cases fast <;>
    simp only [runGenerator, generateTimestamp48, generateTimestamp48Fast,
      Bool.false_eq_true, if_true, if_false, ite_true, ite_false] <;>
    split <;> omega

theorem issuedInstants_chain (clocks : List Int) (last : Int) :
    List.Chain (· < ·) last (issuedInstants clocks last) := by
  induction clocks generalizing last with
  | nil => exact List.Chain.nil
  | cons c rest ih =>
    exact List.Chain.cons (generateTimestamp48_snd c last) (ih _)

theorem issuedInstantsMixed_chain (calls : List (Int × Bool)) (last : Int) :
    List.Chain (· < ·) last (issuedInstantsMixed calls last) := by
  induction calls generalizing last with
  | nil => exact List.Chain.nil
  | cons c rest ih =>
    exact List.Chain.cons (runGenerator_snd c.2 c.1 last) (ih _)

theorem generateBatchLoop_length (n : Nat) (clocks : Nat → Int)
    (fast : Bool) (last : Int) :
    (generateBatchLoop n clocks fast last).1.length = n := by
  induction n generalizing clocks last with
  | zero => rfl
  | succ n ih => simp [generateBatchLoop, ih]

/-! ## Claims -/

/-- Claim C1 (code bug): encode and decode are *not* exact inverses in
the primary module.  For the Instant `2^31` (any Instant with bit 31
set), `decodeTimestamp48 (encodeTimestamp48 x)` returns `x - 2^32`
(here the negative number `-2^31`), because the reconstruction uses the
signed 32-bit shift `bytes[2] << 24`.  The older copy of the module
(`Part000`), whose reconstruction multiplies instead of shifting,
round-trips the same token correctly — witnessing that the spec states
the intent and the shift is the slip. -/
theorem claim_C1 :
    decodeTimestamp48 (.str (encodeTimestamp48 2147483648)) = .ok (-2147483648) ∧
      (-2147483648 : Int) ≠ 2147483648 ∧
      Part000.decodeTimestamp48 (.str (encodeTimestamp48 2147483648)) = .ok 2147483648 := by
  refine ⟨by rfl, by norm_num, by rfl⟩

/-- Claim C2: the sequence of instants issued by successive
`generateTimestamp48` calls is strictly increasing from the initial
state, whatever the wall-clock readings do; whenever the reading is
`≤` the last issued instant the issued instant is `last + 1`; and the
returned token is always the encoding of the instant stored back into
the shared state. -/
theorem claim_C2 :
    (∀ (clocks : List Int) (last : Int),
      List.Chain (· < ·) last (issuedInstants clocks last)) ∧
    (∀ dateNow last : Int, dateNow ≤ last →
      generateTimestamp48 dateNow last
        = (encodeTimestamp48 (last + 1).toNat, last + 1)) ∧
    (∀ dateNow last : Int,
      (generateTimestamp48 dateNow last).1
        = encodeTimestamp48 ((generateTimestamp48 dateNow last).2).toNat) := by
  refine ⟨issuedInstants_chain, ?_, ?_⟩
  · intro c l h
    simp [generateTimestamp48, if_pos h]
  · intro c l
    simp [generateTimestamp48]

/-- Witness for C2 at concrete inputs: three calls under a frozen,
then backwards, wall clock issue strictly increasing instants, and a
frozen clock reading `100 ≤ 200` issues exactly `201`. -/
theorem claim_C2_witness :
    List.Chain (· < ·) 0 (issuedInstants [100, 100, 50] 0) ∧
      generateTimestamp48 100 200
        = (encodeTimestamp48 ((200 : Int) + 1).toNat, (200 : Int) + 1) :=
  ⟨claim_C2.1 [100, 100, 50] 0, claim_C2.2.1 100 200 (by norm_num)⟩

/-- Claim C3 (counterexample): token order in ordinary character-code
string order does *not* match chronological order.  `26 < 52`, but
`encodeTimestamp48 26 = "AAAAAAAa"` does not precede
`encodeTimestamp48 52 = "AAAAAAA0"` — the comparison is inverted,
since `'0' < 'a'` in character codes while `'a'` precedes `'0'` in the
alphabet. -/
theorem claim_C3_counterexample :
    26 < 52 ∧ ¬ jsStringLt (encodeTimestamp48 26) (encodeTimestamp48 52) ∧
      jsStringLt (encodeTimestamp48 52) (encodeTimestamp48 26) := by
  refine ⟨by norm_num, by decide, by decide⟩

/-- Claim C3 (amended): chronological order of Instants matches
lexicographic token order when characters are compared by their
position in `BASE64URL_CHARS` (their `DECODE_TABLE` index) instead of
their character code. -/
theorem claim_C3 (x y : Nat) (hx : x < 2 ^ 48) (hy : y < 2 ^ 48)
    (hxy : x < y) :
    charIdxLexLt (encodeTimestamp48 x) (encodeTimestamp48 y) = true := by
  rw [encodeTimestamp48, encodeTimestamp48,
    charIdxLexLt_map _ _ (encodeIndices_lt x) (encodeIndices_lt y),
    encodeIndices_eq_beDigits x hx, encodeIndices_eq_beDigits y hy]
  have h64 : (64 : Nat) ^ 8 = 2 ^ 48 := by norm_num
  exact digitLexLt_beDigits hxy (by omega)

/-- Witness for the amended C3 at the pair that refuted the original
claim: in alphabet-index order `encodeTimestamp48 26` does precede
`encodeTimestamp48 52`. -/
theorem claim_C3_witness :
    charIdxLexLt (encodeTimestamp48 26) (encodeTimestamp48 52) = true :=
  claim_C3 26 52 (by norm_num) (by norm_num) (by norm_num)

/-- Claim C4: the standard and fast generation paths are behaviorally
identical — from the same shared state and the same wall-clock reading
(any JS safe integers) they return the same token and the same new
state — and any interleaving of the two paths through the one shared
state still issues strictly increasing instants. -/
theorem claim_C4 :
    (∀ dateNow last : Int, 0 ≤ last → dateNow < 2 ^ 53 → last < 2 ^ 53 →
      generateTimestamp48Fast dateNow last = generateTimestamp48 dateNow last) ∧
    (∀ (calls : List (Int × Bool)) (last : Int),
      List.Chain (· < ·) last (issuedInstantsMixed calls last)) := by
  constructor
  · intro c l h0 hc hl
    simp only [generateTimestamp48Fast, generateTimestamp48]
    have hlt : (if c ≤ l then l + 1 else c).toNat < 2 ^ 64 := by
      have h64 : (2 : Int) ^ 53 < 2 ^ 64 := by norm_num
      split <;> omega
    rw [encodeTimestamp48Fast_eq _ hlt]
  · exact issuedInstantsMixed_chain

/-- Witness for C4: both paths agree at a concrete state and clock
reading, and an interleaved fast/standard call sequence is strictly
monotone. -/
theorem claim_C4_witness :
    generateTimestamp48Fast 1000 999 = generateTimestamp48 1000 999 ∧
      List.Chain (· < ·) 0 (issuedInstantsMixed [(5, true), (5, false)] 0) :=
  ⟨claim_C4.1 1000 999 (by norm_num) (by norm_num) (by norm_num),
    claim_C4.2 [(5, true), (5, false)] 0⟩

/-- Claim C5: `decodeTimestamp48` validates before any decoding
arithmetic, in source order, with the typed error of each stage: a
non-string fails with the type-mismatch error; a string of length ≠ 8
fails with the invalid-length error carrying the actual length (even
when it also contains symbols outside the alphabet, showing the length
check runs first); an 8-character string containing a symbol outside
the 64-symbol alphabet fails with the invalid-format error.  The
spec's concrete cases are included, and `'='`, `'+'`, `'/'` are
outside the alphabet's character class. -/
theorem claim_C5 :
    decodeTimestamp48 .nonString = .error .typeMismatch ∧
    (∀ s : List Char, s.length ≠ 8 →
      decodeTimestamp48 (.str s) = .error (.invalidLength s.length)) ∧
    (∀ s : List Char, s.length = 8 → (∃ c ∈ s, ¬ isBase64UrlChar c) →
      decodeTimestamp48 (.str s) = .error .invalidFormat) ∧
    decodeTimestamp48 (.str "".toList) = .error (.invalidLength 0) ∧
    decodeTimestamp48 (.str "toolong!!".toList) = .error (.invalidLength 9) ∧
    decodeTimestamp48 (.str "ab+c_-de".toList) = .error .invalidFormat ∧
    decodeTimestamp48 (.str "ab+c_-d".toList) = .error (.invalidLength 7) ∧
    isBase64UrlChar '=' = false ∧ isBase64UrlChar '+' = false ∧
      isBase64UrlChar '/' = false := by
  refine ⟨by rfl, ?_, ?_, by rfl, by rfl, by rfl, by rfl, by rfl, by rfl, by rfl⟩
  · intro s h
    simp [decodeTimestamp48, h]
  · intro s hlen ⟨c, hc, hbad⟩
    have hregex : base64UrlRegexTest s = false := by
      simp only [base64UrlRegexTest, Bool.and_eq_false_iff]
      right
      rw [Bool.eq_false_iff]
      intro hall
      rw [List.all_eq_true] at hall
      exact hbad (hall c hc)
    simp [decodeTimestamp48, hlen, hregex]

/-- Witness for C5: the quantified clauses applied at concrete inputs
a short string and an 8-character string of padding symbols. -/
theorem claim_C5_witness :
    decodeTimestamp48 (.str "short".toList)
        = .error (.invalidLength ("short".toList).length) ∧
      decodeTimestamp48 (.str "====////".toList) = .error .invalidFormat :=
  ⟨claim_C5.2.1 "short".toList (by decide),
    claim_C5.2.2.1 "====////".toList (by decide) ⟨'=', by decide, by decide⟩⟩

/-- Claim C6: `generateBatch` fails with the argument error exactly
when the integer count is outside `[1, 10000]` (in particular for 0
and 10001), and for every count in range it succeeds with exactly
`count` tokens, produced by invoking the selected generator `count`
times in order through the shared state. -/
theorem claim_C6 :
    (∀ (count : Int) (fast : Bool) (clocks : Nat → Int) (last : Int),
      count < 1 ∨ 10000 < count →
        generateBatch count fast clocks last = .error .invalidCount) ∧
    (∀ (fast : Bool) (clocks : Nat → Int) (last : Int),
      generateBatch 0 fast clocks last = .error .invalidCount ∧
        generateBatch 10001 fast clocks last = .error .invalidCount) ∧
    (∀ (count : Int) (fast : Bool) (clocks : Nat → Int) (last : Int),
      1 ≤ count → count ≤ 10000 →
        generateBatch count fast clocks last
            = .ok (generateBatchLoop count.toNat clocks fast last) ∧
          (generateBatchLoop count.toNat clocks fast last).1.length
            = count.toNat) := by
  refine ⟨?_, ?_, ?_⟩
  · intro count fast clocks last h
    rw [generateBatch, if_pos h]
  · intro fast clocks last
    constructor <;> rw [generateBatch, if_pos (by norm_num)]
  · intro count fast clocks last h1 h2
    refine ⟨?_, generateBatchLoop_length _ _ _ _⟩
    rw [generateBatch, if_neg (by omega)]

/-- Witness for C6: count 0 fails, count 3 succeeds with 3 tokens. -/
theorem claim_C6_witness :
    generateBatch 0 false (fun _ => 0) 0 = .error .invalidCount ∧
      generateBatch 3 false (fun _ => 0) 0
          = .ok (generateBatchLoop (3 : Int).toNat (fun _ => 0) false 0) ∧
        (generateBatchLoop (3 : Int).toNat (fun _ => 0) false 0).1.length
          = (3 : Int).toNat :=
  ⟨claim_C6.1 0 false (fun _ => 0) 0 (by norm_num),
    claim_C6.2.2 3 false (fun _ => 0) 0 (by norm_num) (by norm_num)⟩

/-- Claim C7 (code bug): the generator performs no validation of the
time source at all.  With a wall-clock reading of `-5` (a negative,
invalid value) and initial state `0`, the call *succeeds*, silently
absorbing the bad reading through the monotonic clamp and returning
the token for instant `1` — there is no `ClockUnavailable` failure
path anywhere in the function. -/
theorem claim_C7 :
    generateTimestamp48 (-5) 0 = (encodeTimestamp48 1, 1) ∧
      (generateTimestamp48 (-5) 0).1 = "AAAAAAAB".toList := by
  exact ⟨by rfl, by rfl⟩

/-- Claim C8 (counterexample): the high 2 bits of the first symbol are
*not* unused: encoding `2^48 - 1` gives a first symbol of alphabet
index 63, not `< 16`. -/
theorem claim_C8_counterexample :
    tableIdx ((encodeTimestamp48 (2 ^ 48 - 1)).getD 0 'A') = 63 ∧
      ¬ (63 : Nat) < 16 := by
  exact ⟨by decide, by norm_num⟩

/-- Claim C8 (amended): the encoder is a bijection between the `2^48`
Instants and the *entire* space of valid 8-symbol tokens (which has
exactly `64^8 = 2^48` elements): every encoded Instant is a valid
token, encoding is injective on `[0, 2^48)`, and every valid token is
the encoding of some Instant in range. -/
theorem claim_C8 :
    (∀ x : Nat, x < 2 ^ 48 → isValidToken (encodeTimestamp48 x)) ∧
    (∀ x y : Nat, x < 2 ^ 48 → y < 2 ^ 48 →
      encodeTimestamp48 x = encodeTimestamp48 y → x = y) ∧
    (∀ t : List Char, isValidToken t →
      ∃ x, x < 2 ^ 48 ∧ encodeTimestamp48 x = t) :=
  ⟨fun x _ => encodeTimestamp48_valid x, encodeTimestamp48_injective,
    encodeTimestamp48_surjective⟩

/-- Witness for the amended C8 at concrete inputs. -/
theorem claim_C8_witness :
    isValidToken (encodeTimestamp48 2147483648) ∧
      ∃ x, x < 2 ^ 48 ∧ encodeTimestamp48 x = "zyxw4321".toList :=
  ⟨claim_C8.1 2147483648 (by norm_num),
    claim_C8.2.2 "zyxw4321".toList ⟨by decide, by decide⟩⟩

/-- Claim C9: the concrete scenario — Instant 0 encodes to
`"AAAAAAAA"`, the all-ones Instant `2^48 - 1` encodes to
`"________"`, and `"AAAAAAAA"` decodes to 0. -/
theorem claim_C9 :
    encodeTimestamp48 0 = "AAAAAAAA".toList ∧
      encodeTimestamp48 (2 ^ 48 - 1) = "________".toList ∧
      decodeTimestamp48 (.str "AAAAAAAA".toList) = .ok 0 := by
  exact ⟨by decide, by decide, by rfl⟩

/-- Claim C10 (code bug): the primary module's decoder *can* return a
negative number for an input it accepts: the syntactically valid token
`"AACAAAAA"` (the encoding of `2^31`) decodes to `-2147483648`.  The
older copy of the module decodes the same token to `2^31`, inside
`[0, 2^48)`, as the claim states. -/
theorem claim_C10 :
    decodeTimestamp48 (.str "AACAAAAA".toList) = .ok (-2147483648) ∧
      (-2147483648 : Int) < 0 ∧
      Part000.decodeTimestamp48 (.str "AACAAAAA".toList) = .ok 2147483648 := by
  exact ⟨by rfl, by norm_num, by rfl⟩

/-! ## Supporting results: full characterization of the two decoders

These are not claim theorems; they pin down exactly where the primary
decoder diverges from the older copy, supporting the code-bug verdicts
of C1 and C10. -/

/-- The older copy's decoder inverts the encoder on *every* Instant in
range: its reconstruction multiplies each byte into place. -/
theorem part000_decode_encode (x : Nat) (hx : x < 2 ^ 48) :
    Part000.decodeTimestamp48 (.str (encodeTimestamp48 x)) = .ok (x : Int) := by
  have hval := encodeTimestamp48_valid x
  have hregex : base64UrlRegexTest (encodeTimestamp48 x) = true := by
    simp only [base64UrlRegexTest, encodeTimestamp48_length x, Bool.and_eq_true]
    refine ⟨by norm_num, ?_⟩
    rw [List.all_eq_true]
    exact fun c hc => isBase64UrlChar_of_mem c (hval.2 c hc)
  simp only [Part000.decodeTimestamp48, encodeTimestamp48_length x, hregex]
  norm_num
  simp only [encodeTimestamp48, encodeIndices, List.map_cons, List.map_nil]
  norm_num [List.getElem?_cons_zero, List.getElem?_cons_succ]
  have hidx : ∀ n : Nat, tableIdx (ENCODE_TABLE (n % 64)) = n % 64 :=
    fun n => tableIdx_ENCODE_TABLE _ (Nat.mod_lt _ (by norm_num))
  simp only [hidx]
  rw [encGroup1_eq x hx, encGroup2_eq x]
  norm_cast
  omega

set_option maxHeartbeats 2000000 in
/-- The primary module's decoder inverts the encoder *except* on the
Instants whose bit 31 is set, where the signed shift `bytes[2] << 24`
makes the result exactly `x - 2^32`:
`decode (encode x) = x` when `x % 2^32 < 2^31`, and `x - 2^32`
otherwise. -/
theorem part001_decode_encode (x : Nat) (hx : x < 2 ^ 48) :
    decodeTimestamp48 (.str (encodeTimestamp48 x)) =
      .ok ((x : Int) - if x % 2 ^ 32 < 2 ^ 31 then 0 else 2 ^ 32) := by
  have hval := encodeTimestamp48_valid x
  have hregex : base64UrlRegexTest (encodeTimestamp48 x) = true := by
    simp only [base64UrlRegexTest, encodeTimestamp48_length x, Bool.and_eq_true]
    refine ⟨by norm_num, ?_⟩
    rw [List.all_eq_true]
    exact fun c hc => isBase64UrlChar_of_mem c (hval.2 c hc)
  simp only [decodeTimestamp48, encodeTimestamp48_length x, hregex]
  norm_num
  simp only [encodeTimestamp48, encodeIndices, List.map_cons, List.map_nil]
  norm_num [List.getElem?_cons_zero, List.getElem?_cons_succ]
  have hidx : ∀ n : Nat, tableIdx (ENCODE_TABLE (n % 64)) = n % 64 :=
    fun n => tableIdx_ENCODE_TABLE _ (Nat.mod_lt _ (by norm_num))
  simp only [hidx]
  rw [encGroup1_eq x hx, encGroup2_eq x]
  simp only [toInt32]
  rcases Nat.lt_or_ge (x % 2 ^ 32) (2 ^ 31) with hbit | hbit <;>
    split_ifs <;> omega
